import Mathlib

/-!
Verification of the gowsdl core: schema-ingestion/resolution, identifier and
type normalization, type deduplication, and code-emission orchestration.

Strings are modelled as Lean `String`s; the character-level work happens on
their `List Char` representations.  Go's `map[string]bool` sets are modelled
as `List String` with membership, and the `uint8` recursion counter as a
`Nat` taken modulo 256 at each increment.
-/

namespace Gowsdl

/-! ## Definitions -/

/-- Splitting a character list around each `':'`, mirroring Go's
`strings.Split(s, ":")`: the empty string yields one empty field. -/
def splitOnColonL : List Char → List (List Char)
  | [] => [[]]
  | c :: rest =>
    if c = ':' then [] :: splitOnColonL rest
    else
      match splitOnColonL rest with
      | [] => [[c]]
      | p :: ps => (c :: p) :: ps

/-- `strings.Split(s, ":")` on `String`s. -/
def splitOnColon (s : String) : List String :=
  (splitOnColonL s.toList).map List.asString

/-- Number of colons in a character list. -/
def colonCount (l : List Char) : Nat := l.count ':'

/-- The `GoWSDL` flags consulted by the template closures
(`g.ignoreTypeNs`, `g.exportAllTypes`). -/
structure Config where
  ignoreTypeNs : Bool
  exportAllTypes : Bool
deriving DecidableEq

/-- `reservedWords`: the Go-keyword table, each keyword mapped to its
underscore-suffixed replacement. -/
def reservedWords : List (String × String) :=
  [("break", "break_"), ("default", "default_"), ("func", "func_"),
   ("interface", "interface_"), ("select", "select_"), ("case", "case_"),
   ("defer", "defer_"), ("go", "go_"), ("map", "map_"),
   ("struct", "struct_"), ("chan", "chan_"), ("else", "else_"),
   ("goto", "goto_"), ("package", "package_"), ("switch", "switch_"),
   ("const", "const_"), ("fallthrough", "fallthrough_"), ("if", "if_"),
   ("range", "range_"), ("type", "type_"), ("continue", "continue_"),
   ("for", "for_"), ("import", "import_"), ("return", "return_"),
   ("var", "var_")]

/-- `xsd2GoTypes`: the XSD-primitive to Go-type table (keys lowercase). -/
def xsd2GoTypes : List (String × String) :=
  [("string", "string"), ("token", "string"), ("float", "float32"),
   ("double", "float64"), ("decimal", "float64"), ("integer", "int32"),
   ("int", "int32"), ("short", "int16"), ("byte", "int8"),
   ("long", "int64"), ("boolean", "bool"), ("datetime", "time.Time"),
   ("date", "time.Time"), ("time", "time.Time"),
   ("base64binary", "[]byte"), ("hexbinary", "[]byte"),
   ("unsignedint", "uint32"), ("unsignedshort", "uint16"),
   ("unsignedbyte", "byte"), ("unsignedlong", "uint64"),
   ("anytype", "interface\x7b\x7d")]

/-- Go map indexing `tbl[k]` with the string zero value `""` for a missing
key. -/
def lookupTable (tbl : List (String × String)) (k : String) : String :=
  match tbl.find? (fun p => p.1 == k) with
  | some p => p.2
  | none => ""

/-- One character of `normalize`'s `strings.Map` mapping: keep letters,
digits and underscore, drop everything else (the Go mapping returns `-1`
to drop a rune).  `unicode.IsLetter`/`unicode.IsDigit` are modelled by
`Char.isAlpha`/`Char.isDigit`, exact on the ASCII range the generator's
tables use. -/
def keepIdentChar (r : Char) : Option Char :=
  if r.isAlpha ∨ r.isDigit ∨ r = '_' then some r else none

/-- `normalize`: strip every character the mapping drops. -/
def normalize (value : String) : String :=
  (value.toList.filterMap keepIdentChar).asString

/-- `replaceReservedWords`: look the raw identifier up in the
reserved-word table first; only a non-reserved identifier is normalized. -/
def replaceReservedWords (identifier : String) : String :=
  let value := lookupTable reservedWords identifier
  if value ≠ "" then value else normalize identifier

/-- Package-level `makePublic`: capitalize the identifier's first rune
(`unicode.ToUpper` modelled by `Char.toUpper`, exact on ASCII). -/
def makePublic (identifier : String) : String :=
  match identifier.toList with
  | [] => identifier
  | c :: rest => (c.toUpper :: rest).asString

/-- The `makePublic` template closure: pass identifiers through unchanged
unless `exportAllTypes` is set, in which case defer to the package-level
`makePublic` (the closure body's call resolves to the package-level
function, declared before the closure variable is in scope). -/
def makePublicTmpl (exportAllTypes : Bool) (identifier : String) : String :=
  if !exportAllTypes then identifier else makePublic identifier

/-- The field selection `removeNS`, `stripns` and `toGoTypeNs` all inline:
split on `':'`, take the second field when there are exactly two, else the
first. -/
def splitSelect (l : List Char) : List Char :=
  let r := splitOnColonL l
  if r.length = 2 then r.getD 1 [] else r.headD []

/-- `removeNS`: drop a `ns:` prefix when the string splits into exactly two
fields; otherwise return the first field. -/
def removeNS (xsdType : String) : String :=
  (splitSelect xsdType.toList).asString

/-- `stripns`: same first/second-field selection as `removeNS`. -/
def stripns (xsdType : String) : String :=
  (splitSelect xsdType.toList).asString

/-- `strings.ToLower`, modelled by `Char.toLower` per rune (exact on the
ASCII keys of `xsd2GoTypes`). -/
def goToLower (s : String) : String :=
  (s.toList.map Char.toLower).asString

/-- `toGoTypeNs`: strip the namespace prefix, look the local name up
case-insensitively in `xsd2GoTypes`; otherwise emit a pointer type, with
the namespace prepended when `ignoreTypeNs` is unset and the namespace is
non-empty.  The `makePublic` call in the source resolves to the
package-level `makePublic` (the closure named `makePublic` is declared
later in the enclosing block). -/
def toGoTypeNs (g : Config) (xsdType ns : String) : String :=
  let t := (splitSelect xsdType.toList).asString
  let value := lookupTable xsd2GoTypes (goToLower t)
  if value ≠ "" then value
  else
    let t2 := if g.ignoreTypeNs = false ∧ ns ≠ "" then ns ++ t else t
    "*" ++ replaceReservedWords (makePublic t2)

/-- `toGoType` delegates to `toGoTypeNs` with an empty namespace. -/
def toGoType (g : Config) (xsdType : String) : String :=
  toGoTypeNs g xsdType ""

/-- The colon test used to phrase the field-selection characterization. -/
def notColon (c : Char) : Bool := decide (c ≠ ':')

/-- An `<xsd:import>` reference: namespace plus optional location. -/
structure XSDImport where
  ns : String
  schemaLocation : String
deriving DecidableEq

/-- An `<xsd:include>` reference. -/
structure XSDInclude where
  schemaLocation : String
deriving DecidableEq

/-- A named simple-type definition. -/
structure XSDSimpleType where
  name : String
deriving DecidableEq

/-- A named complex-type definition. -/
structure XSDComplexType where
  name : String
deriving DecidableEq

/-- A top-level element: name and optional type reference. -/
structure XSDElement where
  name : String
  type : String
deriving DecidableEq

/-- One schema of the resolved schema set. -/
structure XSDSchema where
  targetNamespace : String
  imports : List XSDImport
  includes : List XSDInclude
  simpleType : List XSDSimpleType
  complexTypes : List XSDComplexType
  elements : List XSDElement
deriving DecidableEq

/-- A message part, optionally typed inline (`type`) or referencing an
element (`element`). -/
structure WSDLPart where
  name : String
  type : String
  element : String
deriving DecidableEq

/-- A named message with its ordered parts. -/
structure WSDLMessage where
  name : String
  parts : List WSDLPart
deriving DecidableEq

/-- A port type (opaque here: only passed whole to the operations
renderer). -/
structure WSDLPortType where
  name : String
deriving DecidableEq

/-- The `<wsdl:types>` node: the resolved schema set. -/
structure WSDLType where
  schemas : List XSDSchema
deriving DecidableEq

/-- The parsed WSDL document (the fields the verified functions read). -/
structure WSDL where
  messages : List WSDLMessage
  portTypes : List WSDLPortType
  types : WSDLType
deriving DecidableEq

/-- `getFullTypeName`: the Type Key — `ns:name`, or the local name alone
when `ignoreTypeNs` is set. -/
def getFullTypeName (typeName ns : String) (ignoreTypeNs : Bool) : String :=
  if ignoreTypeNs then typeName else ns ++ ":" ++ typeName

/-- One of `removeTypeDuplicates`' two identical per-list loops: keep a type
whose key is not yet in the dictionary, recording the key; drop it
otherwise.  Returns the grown dictionary and the surviving list. -/
def dedupByKey {α : Type} (key : α → String) :
    List String → List α → List String × List α
  | dict, [] => (dict, [])
  | dict, t :: ts =>
    if key t ∈ dict then dedupByKey key dict ts
    else
      let r := dedupByKey key (key t :: dict) ts
      (r.1, t :: r.2)

/-- The per-schema walk of `removeTypeDuplicates`: simple types first, then
complex types, threading one dictionary across all schemas. -/
def dedupSchemas (ig : Bool) : List String → List XSDSchema → List XSDSchema
  | _, [] => []
  | dict, schema :: rest =>
    let rs := dedupByKey
      (fun t : XSDSimpleType => getFullTypeName t.name schema.targetNamespace ig)
      dict schema.simpleType
    let rc := dedupByKey
      (fun t : XSDComplexType => getFullTypeName t.name schema.targetNamespace ig)
      rs.1 schema.complexTypes
    { schema with simpleType := rs.2, complexTypes := rc.2 } ::
      dedupSchemas ig rc.1 rest

/-- `removeTypeDuplicates`: one fresh dictionary for the whole schema set. -/
def removeTypeDuplicates (ig : Bool) (w : WSDLType) : WSDLType :=
  { w with schemas := dedupSchemas ig [] w.schemas }

/-- `WSDL.refine` delegates to `removeTypeDuplicates`. -/
def refine (ig : Bool) (w : WSDL) : WSDL :=
  { w with types := removeTypeDuplicates ig w.types }

/-- Spec-side single global pass: "maintains one dictionary of already
emitted Type Keys across ALL schemas; a type whose key was already seen is
dropped; first occurrence wins". -/
def firstWins {β : Type} : List String → List (String × β) → List (String × β)
  | _, [] => []
  | seen, x :: xs =>
    if x.1 ∈ seen then firstWins seen xs
    else x :: firstWins (x.1 :: seen) xs

/-- The dictionary contents after a walk prefix. -/
def seenAfter {β : Type} : List String → List (String × β) → List String
  | seen, [] => seen
  | seen, x :: xs =>
    if x.1 ∈ seen then seenAfter seen xs else seenAfter (x.1 :: seen) xs

/-- The global walk order of `removeTypeDuplicates`: schemas in order,
within a schema the simple types then the complex types, each tagged with
its Type Key. -/
def typeWalk (ig : Bool) (schemas : List XSDSchema) :
    List (String × (XSDSimpleType ⊕ XSDComplexType)) :=
  schemas.flatMap (fun s =>
    s.simpleType.map
      (fun t => (getFullTypeName t.name s.targetNamespace ig, Sum.inl t)) ++
    s.complexTypes.map
      (fun t => (getFullTypeName t.name s.targetNamespace ig, Sum.inr t)))

/-- `strings.EqualFold`, modelled by lower-casing both sides
(`Char.toLower` is exact on the ASCII names used here). -/
def equalFold (a b : String) : Bool := goToLower a == goToLower b

/-- The element scan inside `findType`: first element across all schemas
whose name matches case-insensitively; its declared type
(namespace-stripped) or, untyped, its own name. -/
def findElementType (schemas : List XSDSchema) (elRef : String) :
    Option String :=
  ((schemas.flatMap (·.elements)).find? (fun el => equalFold elRef el.name)).map
    (fun el => if el.type ≠ "" then stripns el.type else el.name)

/-- The message scan of `findType`: a name mismatch or a zero-part message
continues the scan, as does a part whose element reference matches no
element; a first part with an inline type returns it namespace-stripped. -/
def findTypeScan (schemas : List XSDSchema) (message : String) :
    List WSDLMessage → String
  | [] => ""
  | msg :: rest =>
    if msg.name ≠ message then findTypeScan schemas message rest
    else
      match msg.parts with
      | [] => findTypeScan schemas message rest
      | part :: _ =>
        if part.type ≠ "" then stripns part.type
        else
          match findElementType schemas (stripns part.element) with
          | some r => r
          | none => findTypeScan schemas message rest

/-- `findType`: strip the queried name's namespace, then scan the
messages. -/
def findType (w : WSDL) (message : String) : String :=
  findTypeScan w.types.schemas (stripns message) w.messages

/-- The C8 counterexample model: two messages named `M`, the first with
zero parts, the second with a typed first part. -/
def wsdlDupMsg : WSDL :=
  ⟨[⟨"M", []⟩, ⟨"M", [⟨"p", "tns:T", ""⟩]⟩], [], ⟨[]⟩⟩

/-- `const maxRecursion uint8 = 100`. -/
def maxRecursion : Nat := 100

/-- The external collaborators of one resolution run. -/
structure World where
  rootLoc : String
  parse : String → String → String
  fetchMap : List (String × Except String XSDSchema)
  wsdlFetch : Except String WSDL

/-- Fetch-and-parse of the schema at a location: table lookup, with
locations outside the table failing. -/
def World.fetch (w : World) (loc : String) : Except String XSDSchema :=
  match w.fetchMap.find? (fun p => p.1 == loc) with
  | some p => p.2
  | none => .error ("unreachable location " ++ loc)

/-- The locations whose fetch succeeds (the termination measure's finite
universe). -/
def World.okDom (w : World) : Finset String :=
  ((w.fetchMap.filter (fun p => p.2.toBool)).map Prod.fst).toFinset

instance {e a : Type} [DecidableEq e] [DecidableEq a] :
    DecidableEq (Except e a) := fun x y =>
  match x, y with
  | .ok v, .ok v2 =>
    if h : v = v2 then isTrue (by rw [h]) else
      isFalse (by intro hc; cases hc; exact h rfl)
  | .ok _, .error _ => isFalse (by intro hc; cases hc)
  | .error _, .ok _ => isFalse (by intro hc; cases hc)
  | .error v, .error v2 =>
    if h : v = v2 then isTrue (by rw [h]) else
      isFalse (by intro hc; cases hc; exact h rfl)

/-- The mutable resolution state plus ghost trace fields. -/
structure ResolveState where
  visited : List String
  counter : Nat
  schemas : List XSDSchema
  fetched : List String
  attempts : List String
  ceilingHit : Bool
  entries : Nat
deriving DecidableEq

/-- A fresh state over an initial schema list (empty visited map, zero
counter, empty traces). -/
def cleanState (schemas : List XSDSchema) : ResolveState :=
  ⟨[], 0, schemas, [], [], false, 0⟩

/-- `downloadSchemaIfRequired`: resolve the reference against the base
location; an already-visited location downloads nothing; otherwise fetch
and parse, recording the attempt (and, on success, the fetch) in the ghost
trace. -/
def downloadSchemaIfRequired (w : World) (st : ResolveState)
    (base locationRef : String) :
    Except String (Option (XSDSchema × String)) × ResolveState :=
  let newSchemaLoc := w.parse base locationRef
  if newSchemaLoc ∈ st.visited then (.ok none, st)
  else
    match w.fetch newSchemaLoc with
    | .error e => (.error e, { st with attempts := st.attempts ++ [newSchemaLoc] })
    | .ok newSchema =>
      (.ok (some (newSchema, newSchemaLoc)),
       { st with attempts := st.attempts ++ [newSchemaLoc],
                 fetched := st.fetched ++ [newSchemaLoc] })

/-- One of `resolveXSDExternals`' reference loops (imports and includes run
the same body): an empty location is skipped, the first error breaks the
loop, a downloaded schema is appended to the schema set and recursed into
through `next` (the fuel-smaller `resolveXSD`). -/
def resolveRefs (w : World)
    (next : XSDSchema → String → ResolveState →
      Option (Except String Unit × ResolveState))
    (base : String) :
    ResolveState → List String → Option (Except String Unit × ResolveState)
  | st, [] => some (.ok (), st)
  | st, locRef :: rest =>
    if locRef = "" then resolveRefs w next base st rest
    else
      match downloadSchemaIfRequired w st base locRef with
      | (.error e, st1) => some (.error e, st1)
      | (.ok none, st1) => resolveRefs w next base st1 rest
      | (.ok (some (newSchema, newLoc)), st1) =>
        let st2 := { st1 with schemas := st1.schemas ++ [newSchema] }
        match next newSchema newLoc st2 with
        | none => none
        | some (.error e, st3) => some (.error e, st3)
        | some (.ok (), st3) => resolveRefs w next base st3 rest

/-- `resolveXSDExternals`: bump the shared `uint8` counter; past the ceiling
return success immediately (ghost-flagging `ceilingHit`); skip an
already-visited location; otherwise mark it visited and walk imports then
includes.  `fuel` makes the recursion structural; `none` means fuel ran out
(the termination theorem shows a sufficient fuel always exists). -/
def resolveXSD : Nat → World → XSDSchema → String → ResolveState →
    Option (Except String Unit × ResolveState)
  | 0, _, _, _, _ => none
  | fuel + 1, w, schema, loc, st =>
    let st1 : ResolveState :=
      { st with counter := (st.counter + 1) % 256, entries := st.entries + 1 }
    if st1.counter > maxRecursion then
      some (.ok (), { st1 with ceilingHit := true })
    else if loc ∈ st1.visited then
      some (.ok (), st1)
    else
      let st2 := { st1 with visited := loc :: st1.visited }
      match resolveRefs w (resolveXSD fuel w) loc st2
          (schema.imports.map (·.schemaLocation)) with
      | none => none
      | some (.error e, st3) => some (.error e, st3)
      | some (.ok (), st3) =>
        resolveRefs w (resolveXSD fuel w) loc st3
          (schema.includes.map (·.schemaLocation))

/-- `unmarshal`'s loop over the root document's schemas, sharing one state
and stopping at the first error. -/
def resolveAll (fuel : Nat) (w : World) (loc : String) :
    ResolveState → List XSDSchema → Option (Except String Unit × ResolveState)
  | st, [] => some (.ok (), st)
  | st, schema :: rest =>
    match resolveXSD fuel w schema loc st with
    | none => none
    | some (.error e, st1) => some (.error e, st1)
    | some (.ok (), st1) => resolveAll fuel w loc st1 rest

/-- `unmarshal`: fetch and parse the root WSDL, then resolve the externals
of each of its schemas; the first failure propagates. -/
def unmarshal (fuel : Nat) (w : World) :
    Option (Except String (WSDL × ResolveState)) :=
  match w.wsdlFetch with
  | .error e => some (.error e)
  | .ok wsdl =>
    match resolveAll fuel w w.rootLoc (cleanState wsdl.types.schemas)
        wsdl.types.schemas with
    | none => none
    | some (.error e, _) => some (.error e)
    | some (.ok (), st) => some (.ok (wsdl, st))

structure RunInv (w : World) (extra : List String)
    (st st' : ResolveState) (r : Except String Unit) : Prop where
  visited_mono : st.visited ⊆ st'.visited
  entries_mono : st.entries ≤ st'.entries
  counter_eq : st.counter < 256 →
    st'.counter = (st.counter + (st'.entries - st.entries)) % 256
  schemas_eq : st'.schemas.length + st.fetched.length =
    st.schemas.length + st'.fetched.length
  ceiling_mono : st.ceilingHit = true → st'.ceilingHit = true
  ok_attempts : r = .ok () →
    ∃ new, st'.attempts = st.attempts ++ new ∧
      ∀ x ∈ new, (w.fetch x).toBool = true
  error_attempts : ∀ e, r = .error e →
    ∃ pre l, st'.attempts = st.attempts ++ (pre ++ [l]) ∧
      (∀ x ∈ pre, (w.fetch x).toBool = true) ∧ w.fetch l = .error e
  fetch_nodup : st'.ceilingHit = false →
    st.fetched.Nodup → (∀ x ∈ st.fetched, x ∈ st.visited ∨ x ∈ extra) →
    st'.fetched.Nodup ∧ ∀ x ∈ st'.fetched, x ∈ st'.visited

/-- The count of fetchable not-yet-visited locations (the termination
measure). -/
def unseenCount (w : World) (visited : List String) : Nat :=
  (w.okDom.filter (fun l => l ∉ visited)).card

/-- The template engine (an external collaborator): the rendering outcome
of each artifact over the data handed to it. -/
structure Renderers where
  types : WSDLType → Except String String
  operations : List WSDLPortType → Except String String
  header : String → Except String String
  soap : String → Except String String

/-- The four output buffers; `none` models the `nil` slice a failed
generator leaves in the map. -/
structure GoCode where
  types : Option String
  operations : Option String
  header : Option String
  soap : Option String
deriving DecidableEq

/-- `Start`: unmarshal (aborting on error), refine the raw model, then
render the four artifacts; each rendering error is only logged, leaving
that artifact's entry empty, and `Start` still returns success.  (The
schema traverser the source runs between refine and rendering is not part
of the verified sources and does not affect these observations.) -/
def Start (g : Config) (pkg : String) (fuel : Nat) (w : World)
    (r : Renderers) : Option (Except String GoCode) :=
  match unmarshal fuel w with
  | none => none
  | some (.error e) => some (.error e)
  | some (.ok (wsdl, _)) =>
    let refined := refine g.ignoreTypeNs wsdl
    some (.ok
      { types := (r.types refined.types).toOption,
        operations := (r.operations refined.portTypes).toOption,
        header := (r.header pkg).toOption,
        soap := (r.soap pkg).toOption })

/-- A schema with no references and no types. -/
def emptySchema : XSDSchema := ⟨"", [], [], [], [], []⟩

/-- Cycle A → B → A: the root schema at location `A` imports `B`. -/
def schemaA : XSDSchema := ⟨"nsA", [⟨"nsB", "B"⟩], [], [], [], []⟩

/-- The schema at location `B` imports `A` back. -/
def schemaB : XSDSchema := ⟨"nsB", [⟨"nsA", "A"⟩], [], [], [], []⟩

/-- The cyclic two-schema world. -/
def cycleWorld : World :=
  ⟨"A", fun _ ref => ref, [("B", .ok schemaB)], .error "unused"⟩

/-- The final state of resolving the cycle from a clean start. -/
def cycleFinal : ResolveState :=
  ⟨["B", "A"], 2, [schemaA, schemaB], ["B"], ["B"], false, 2⟩

/-- A 100-deep chain: schema `i` (at location `l<i>`) imports `l<i+1>`;
the last one imports the same location `X` twice. -/
def chainSchema (i : Nat) : XSDSchema :=
  if i = 99 then ⟨"", [⟨"", "X"⟩, ⟨"", "X"⟩], [], [], [], []⟩
  else ⟨"", [⟨"", "l" ++ toString (i + 1)⟩], [], [], [], []⟩

/-- The deep-chain world reaching the recursion ceiling. -/
def deepWorld : World :=
  ⟨"l0", fun _ ref => ref,
   ((List.range 99).map
     (fun i => ("l" ++ toString (i + 1), Except.ok (chainSchema (i + 1))))) ++
   [("X", .ok emptySchema)],
   .error "unused"⟩

/-- A schema with no references, fetched successfully. -/
def goodSchema : XSDSchema := ⟨"nsG", [], [], [], [], []⟩

/-- A root schema importing a good location, then a failing one, then one
that is never reached. -/
def failSchema : XSDSchema :=
  ⟨"nsF", [⟨"", "good"⟩, ⟨"", "bad"⟩, ⟨"", "never"⟩], [], [], [], []⟩

/-- A world whose `bad` location is unreachable. -/
def failWorld : World :=
  ⟨"root", fun _ ref => ref,
   [("good", .ok goodSchema), ("never", .ok goodSchema)],
   .ok ⟨[], [], ⟨[failSchema]⟩⟩⟩

/-- A WSDL with no schemas (rendering-only scenarios). -/
def wsdl0 : WSDL := ⟨[], [], ⟨[]⟩⟩

/-- A world whose root document is `wsdl0` and that fetches nothing. -/
def w0 : World := ⟨"r", fun _ ref => ref, [], .ok wsdl0⟩

/-- Renderers whose types artifact fails. -/
def rFailTypes : Renderers :=
  ⟨fun _ => .error "boom", fun _ => .ok "O", fun _ => .ok "H",
   fun _ => .ok "S"⟩

/-- Renderers whose operations artifact fails. -/
def rFailOps : Renderers :=
  ⟨fun _ => .ok "T", fun _ => .error "boom", fun _ => .ok "H",
   fun _ => .ok "S"⟩

/-- Renderers that all succeed. -/
def rAllOk : Renderers :=
  ⟨fun _ => .ok "T", fun _ => .ok "O", fun _ => .ok "H", fun _ => .ok "S"⟩

/-- A state whose counter sits just past the ceiling. -/
def st150 : ResolveState := ⟨[], 150, [], [], [], false, 0⟩

/-! ## Theorems -/

theorem splitOnColonL_ne_nil (l : List Char) : splitOnColonL l ≠ [] := by
  induction l with
  | nil => simp [splitOnColonL]
  | cons c rest ih =>
    simp only [splitOnColonL]
    split
    · simp
    · cases h : splitOnColonL rest <;> simp

theorem splitOnColon_ne_nil (s : String) : splitOnColon s ≠ [] := by
  have h := splitOnColonL_ne_nil s.toList
  simp only [splitOnColon, ne_eq, List.map_eq_nil_iff]
  exact h

theorem splitOnColonL_length (l : List Char) :
    (splitOnColonL l).length = colonCount l + 1 := by
  induction l with
  | nil => simp [splitOnColonL, colonCount]
  | cons c rest ih =>
    simp only [splitOnColonL, colonCount] at *
    by_cases hc : c = ':'
    · subst hc; simp [List.count_cons, ih]
    · rw [if_neg hc]
      cases h : splitOnColonL rest with
      | nil => exact absurd h (splitOnColonL_ne_nil rest)
      | cons p ps =>
        rw [h] at ih
        simp only [List.length_cons] at ih ⊢
        rw [List.count_cons]
        simp [hc, ih]

theorem splitOnColonL_head (l : List Char) :
    (splitOnColonL l).headD [] = l.takeWhile (· ≠ ':') := by
  induction l with
  | nil => simp [splitOnColonL]
  | cons c rest ih =>
    simp only [splitOnColonL]
    by_cases hc : c = ':'
    · subst hc; simp [List.takeWhile]
    · rw [if_neg hc]
      cases h : splitOnColonL rest with
      | nil => exact absurd h (splitOnColonL_ne_nil rest)
      | cons p ps =>
        rw [h] at ih
        simp only [List.headD_cons] at ih
        simp [List.takeWhile, hc, ih]

/-- No-colon strings split to a single field. -/
theorem splitOnColonL_no_colon {l : List Char} (h : colonCount l = 0) :
    splitOnColonL l = [l] := by
  induction l with
  | nil => simp [splitOnColonL]
  | cons c rest ih =>
    simp only [colonCount, List.count_cons] at h
    have hc : c ≠ ':' := by
      intro hc; subst hc; simp at h
    have hrest : colonCount rest = 0 := by
      simp only [colonCount]
      omega
    simp only [splitOnColonL, if_neg hc, ih hrest]

/-- Splitting distributes over the first colon: the colon-free prefix becomes
the first field. -/
theorem splitOnColonL_append_colon {a : List Char} (b : List Char)
    (h : colonCount a = 0) :
    splitOnColonL (a ++ ':' :: b) = a :: splitOnColonL b := by
  induction a with
  | nil => simp [splitOnColonL]
  | cons c rest ih =>
    simp only [colonCount, List.count_cons] at h
    have hc : c ≠ ':' := by
      intro hc; subst hc; simp at h
    have hrest : colonCount rest = 0 := by
      simp only [colonCount]; omega
    simp only [List.cons_append, splitOnColonL, if_neg hc]
    rw [show rest.append (':' :: b) = rest ++ ':' :: b from rfl, ih hrest]

theorem colonCount_takeWhile (l : List Char) :
    colonCount (l.takeWhile notColon) = 0 := by
  rw [colonCount, List.count_eq_zero]
  intro hmem
  have := List.mem_takeWhile_imp hmem
  simp [notColon] at this

theorem splitSelect_of_no_colon {l : List Char} (h : colonCount l = 0) :
    splitSelect l = l := by
  simp [splitSelect, splitOnColonL_no_colon h]

/-- With exactly one colon, the selection returns the part after it. -/
theorem splitSelect_of_one_colon {l : List Char} (h : colonCount l = 1) :
    splitSelect l = (l.dropWhile notColon).tail := by
  have hmem : ':' ∈ l := by
    by_contra hn
    rw [colonCount, List.count_eq_zero.mpr hn] at h
    exact absurd h (by decide)
  have hd : l.dropWhile notColon ≠ [] := by
    intro hnil
    rw [List.dropWhile_eq_nil_iff] at hnil
    have := hnil ':' hmem
    simp [notColon] at this
  obtain ⟨d, ds, hds⟩ : ∃ d ds, l.dropWhile notColon = d :: ds := by
    cases hc : l.dropWhile notColon with
    | nil => exact absurd hc hd
    | cons d ds => exact ⟨d, ds, rfl⟩
  have hdcolon : d = ':' := by
    have hh := List.head?_dropWhile_not notColon l
    rw [hds] at hh
    simp only [List.head?_cons] at hh
    simpa [notColon] using hh
  have hsplit : l = l.takeWhile notColon ++ ':' :: ds := by
    conv_lhs => rw [← List.takeWhile_append_dropWhile notColon l]
    rw [hds, hdcolon]
  have hcds : colonCount ds = 0 := by
    have hcnt : List.count ':' l =
        List.count ':' (l.takeWhile notColon) + (List.count ':' ds + 1) := by
      conv_lhs => rw [hsplit]
      rw [List.count_append, List.count_cons]
      simp
    have h0 := colonCount_takeWhile l
    rw [colonCount] at h0 h ⊢
    omega
  rw [splitSelect]
  conv_lhs => rw [hsplit]
  rw [splitOnColonL_append_colon _ (colonCount_takeWhile l),
    splitOnColonL_no_colon hcds]
  rw [hds]
  simp

/-- With two or more colons, the selection returns the first field. -/
theorem splitSelect_of_two_colons {l : List Char} (h : 2 ≤ colonCount l) :
    splitSelect l = l.takeWhile notColon := by
  rw [splitSelect]
  have hlen : (splitOnColonL l).length = colonCount l + 1 :=
    splitOnColonL_length l
  rw [if_neg (by omega), splitOnColonL_head]
  congr 1

/-- C10: for every input string with two or more `':'` separators, `stripns`,
`removeNS` and the prefix-stripping step inside `toGoTypeNs` all yield the
first segment before the first colon; exactly one colon yields the part after
the colon; a string without a colon passes through unchanged. -/
theorem claim_namespace_strip_first_segment (s : String) :
    (2 ≤ colonCount s.toList →
      stripns s = (s.toList.takeWhile notColon).asString ∧
      removeNS s = (s.toList.takeWhile notColon).asString ∧
      ∀ g ns, toGoTypeNs g s ns =
        toGoTypeNs g (s.toList.takeWhile notColon).asString ns) ∧
    (colonCount s.toList = 1 →
      stripns s = ((s.toList.dropWhile notColon).tail).asString ∧
      removeNS s = ((s.toList.dropWhile notColon).tail).asString) ∧
    (colonCount s.toList = 0 → stripns s = s ∧ removeNS s = s) := by
  refine ⟨fun h2 => ⟨?_, ?_, ?_⟩, fun h1 => ⟨?_, ?_⟩, fun h0 => ⟨?_, ?_⟩⟩
  · rw [stripns, splitSelect_of_two_colons h2]
  · rw [removeNS, splitSelect_of_two_colons h2]
  · intro g ns
    have hts : splitSelect ((s.toList.takeWhile notColon).asString).toList =
        splitSelect s.toList := by
      rw [List.toList_asString, splitSelect_of_no_colon (colonCount_takeWhile _),
        splitSelect_of_two_colons h2]
    simp only [toGoTypeNs, hts]
  · rw [stripns, splitSelect_of_one_colon h1]
  · rw [removeNS, splitSelect_of_one_colon h1]
  · rw [stripns, splitSelect_of_no_colon h0, String.asString_toList]
  · rw [removeNS, splitSelect_of_no_colon h0, String.asString_toList]

/-- Witness for C10 at `"a:b:c"`, `"x:y"` and `"plain"`. -/
theorem claim_namespace_strip_first_segment_witness :
    stripns "a:b:c" = ("a:b:c".toList.takeWhile notColon).asString ∧
    removeNS "x:y" = (("x:y".toList.dropWhile notColon).tail).asString ∧
    stripns "plain" = "plain" :=
  ⟨((claim_namespace_strip_first_segment "a:b:c").1 (by decide)).1,
   ((claim_namespace_strip_first_segment "x:y").2.1 (by decide)).2,
   ((claim_namespace_strip_first_segment "plain").2.2 (by decide)).1⟩

theorem lookupTable_eq_empty_of_not_mem {tbl : List (String × String)}
    {k : String} (h : k ∉ tbl.map Prod.fst) : lookupTable tbl k = "" := by
  rw [lookupTable]
  have hf : tbl.find? (fun p => p.1 == k) = none := by
    rw [List.find?_eq_none]
    intro p hp
    simp only [beq_iff_eq]
    intro hpk
    exact h (hpk ▸ List.mem_map_of_mem Prod.fst hp)
  rw [hf]

/-- `strings.Map` with a keep-or-drop mapping is a filter. -/
theorem filterMap_keepIdentChar (l : List Char) :
    l.filterMap keepIdentChar =
      l.filter (fun r => r.isAlpha || r.isDigit || r == '_') := by
  induction l with
  | nil => rfl
  | cons c rest ih =>
    rw [List.filterMap_cons, List.filter_cons]
    by_cases h : c.isAlpha ∨ c.isDigit ∨ c = '_'
    · rw [keepIdentChar, if_pos h, ih, if_pos (by simpa [or_assoc] using h)]
    · rw [keepIdentChar, if_neg h, ih, if_neg (by simpa [or_assoc] using h)]

/-- C5 counterexample: the stripped form of `"type#"` is the reserved word
`type`, yet `replaceReservedWords` leaves it unsuffixed, because the table
is consulted on the raw identifier before any stripping. -/
theorem claim_sanitize_strip_then_check_counterexample :
    normalize "type#" = "type" ∧
    lookupTable reservedWords "type" = "type_" ∧
    replaceReservedWords "type#" = "type" ∧
    replaceReservedWords "type#" ≠ "type_" := by
  refine ⟨by decide, by decide, by decide, by decide⟩

/-- C5 amended: `replaceReservedWords` first checks the raw identifier
against the reserved-word table, returning the underscore-suffixed entry
when present; only a non-reserved identifier is stripped of characters that
are not letters, digits or underscores, and the stripped result is not
re-checked against the table.  `type` still maps to `type_` and `Order-#1`
to `Order1`. -/
theorem claim_replaceReservedWords_table_first (s : String) :
    (s ∈ reservedWords.map Prod.fst → replaceReservedWords s = s ++ "_") ∧
    (s ∉ reservedWords.map Prod.fst →
      replaceReservedWords s =
        (s.toList.filter (fun r => r.isAlpha || r.isDigit || r == '_')).asString) ∧
    replaceReservedWords "type" = "type_" ∧
    replaceReservedWords "Order-#1" = "Order1" := by
  refine ⟨?_, ?_, by decide, by decide⟩
  · intro hmem
    simp only [reservedWords, List.map_cons, List.map_nil, List.mem_cons,
      List.not_mem_nil, or_false] at hmem
    rcases hmem with rfl | rfl | rfl | rfl | rfl | rfl | rfl | rfl | rfl | rfl |
      rfl | rfl | rfl | rfl | rfl | rfl | rfl | rfl | rfl | rfl | rfl | rfl |
      rfl | rfl | rfl <;> decide
  · intro hnm
    simp only [replaceReservedWords]
    rw [lookupTable_eq_empty_of_not_mem hnm, if_neg (by simp),
      normalize, filterMap_keepIdentChar]

/-- Witness for C5's amended statement at a reserved and at a decorated
identifier. -/
theorem claim_replaceReservedWords_table_first_witness :
    replaceReservedWords "type" = "type" ++ "_" ∧
    replaceReservedWords "Order-#1" =
      ("Order-#1".toList.filter
        (fun r => r.isAlpha || r.isDigit || r == '_')).asString :=
  ⟨(claim_replaceReservedWords_table_first "type").1 (by decide),
   (claim_replaceReservedWords_table_first "Order-#1").2.1 (by decide)⟩

theorem char_toUpper_idem (c : Char) : c.toUpper.toUpper = c.toUpper := by
  by_cases h : c.toNat ≥ 97 ∧ c.toNat ≤ 122
  · have h1 : c.toUpper = Char.ofNat (c.toNat - 32) := by
      simp only [Char.toUpper]
      rw [if_pos h]
    have hv : Nat.isValidChar (c.toNat - 32) := Or.inl (by omega)
    have ht : (Char.ofNat (c.toNat - 32)).toNat = c.toNat - 32 := by
      rw [Char.ofNat, dif_pos hv]
      rfl
    rw [h1]
    simp only [Char.toUpper]
    rw [if_neg (by rw [ht]; omega)]
  · have h1 : c.toUpper = c := by
      simp only [Char.toUpper]
      rw [if_neg h]
    rw [h1, h1]

theorem makePublic_makePublic (x : String) :
    makePublic (makePublic x) = makePublic x := by
  cases h : x.toList with
  | nil =>
    have h1 : makePublic x = x := by simp only [makePublic, h]
    rw [h1, h1]
  | cons c rest =>
    have h1 : makePublic x = (c.toUpper :: rest).asString := by
      simp only [makePublic, h]
    rw [h1]
    simp only [makePublic, List.toList_asString]
    rw [char_toUpper_idem]

/-- C9: the export transform is idempotent, and with `exportAllTypes`
disabled it is the identity on every identifier. -/
theorem claim_makePublic_idempotent :
    (∀ (exportAllTypes : Bool) (x : String),
      makePublicTmpl exportAllTypes (makePublicTmpl exportAllTypes x) =
        makePublicTmpl exportAllTypes x) ∧
    ∀ x : String, makePublicTmpl false x = x := by
  constructor
  · intro ea x
    cases ea
    · rfl
    · exact makePublic_makePublic x
  · intro x
    rfl

/-- C6: `toGoTypeNs` maps `xsd:int` to `int32`, `xsd:unsignedInt` to
`uint32` and `xsd:base64Binary` to `[]byte`, looking the namespace-stripped
local name up case-insensitively; a name outside the primitive table, with
`ignoreTypeNs` unset and a non-empty namespace, becomes a pointer type whose
name combines the namespace and the local name. -/
theorem claim_toGoTypeNs_mapping :
    (∀ (g : Config) (ns : String),
      toGoTypeNs g "xsd:int" ns = "int32" ∧
      toGoTypeNs g "xsd:INT" ns = "int32" ∧
      toGoTypeNs g "xsd:unsignedInt" ns = "uint32" ∧
      toGoTypeNs g "xsd:base64Binary" ns = "[]byte") ∧
    ∀ (g : Config) (xsdType ns : String),
      lookupTable xsd2GoTypes (goToLower (stripns xsdType)) = "" →
      g.ignoreTypeNs = false → ns ≠ "" →
      toGoTypeNs g xsdType ns =
        "*" ++ replaceReservedWords (makePublic (ns ++ stripns xsdType)) := by
  constructor
  · intro g ns
    exact ⟨rfl, rfl, rfl, rfl⟩
  · intro g xsdType ns hlk hig hns
    simp only [stripns] at hlk
    simp only [toGoTypeNs, stripns]
    rw [hlk, if_neg (by simp), if_pos ⟨hig, hns⟩]

/-- Witness for C6's non-primitive branch at `myns:Foo` with namespace
`Ext`. -/
theorem claim_toGoTypeNs_mapping_witness :
    lookupTable xsd2GoTypes (goToLower (stripns "myns:Foo")) = "" ∧
    toGoTypeNs ⟨false, true⟩ "myns:Foo" "Ext" =
      "*" ++ replaceReservedWords (makePublic ("Ext" ++ stripns "myns:Foo")) :=
  ⟨by decide,
   claim_toGoTypeNs_mapping.2 ⟨false, true⟩ "myns:Foo" "Ext" (by decide) rfl
     (by decide)⟩

theorem firstWins_append {β : Type} (seen : List String)
    (xs ys : List (String × β)) :
    firstWins seen (xs ++ ys) =
      firstWins seen xs ++ firstWins (seenAfter seen xs) ys := by
  induction xs generalizing seen with
  | nil => rfl
  | cons x xs ih =>
    simp only [List.cons_append, firstWins, seenAfter]
    split
    · exact ih seen
    · simp only [List.cons_append, List.cons_inj_right]
      exact ih (x.1 :: seen)

theorem seenAfter_append {β : Type} (seen : List String)
    (xs ys : List (String × β)) :
    seenAfter seen (xs ++ ys) = seenAfter (seenAfter seen xs) ys := by
  induction xs generalizing seen with
  | nil => rfl
  | cons x xs ih =>
    simp only [List.cons_append, seenAfter]
    split
    · exact ih seen
    · exact ih (x.1 :: seen)

/-- One per-list dedup loop is the spec-side pass over its keyed walk, and
its final dictionary is the walk's `seenAfter`. -/
theorem dedupByKey_walk {α β : Type} (key : α → String) (emb : α → β)
    (dict : List String) (l : List α) :
    (dedupByKey key dict l).1 =
        seenAfter dict (l.map (fun t => (key t, emb t))) ∧
    (dedupByKey key dict l).2.map (fun t => (key t, emb t)) =
        firstWins dict (l.map (fun t => (key t, emb t))) := by
  induction l generalizing dict with
  | nil => exact ⟨rfl, rfl⟩
  | cons t ts ih =>
    simp only [dedupByKey, List.map_cons, firstWins, seenAfter]
    by_cases h : key t ∈ dict
    · rw [if_pos h, if_pos h, if_pos h]
      exact ih dict
    · rw [if_neg h, if_neg h, if_neg h]
      refine ⟨(ih (key t :: dict)).1, ?_⟩
      simp only [List.map_cons, List.cons_inj_right]
      exact (ih (key t :: dict)).2

theorem dedupByKey_sublist {α : Type} (key : α → String) (dict : List String)
    (l : List α) : (dedupByKey key dict l).2.Sublist l := by
  induction l generalizing dict with
  | nil => simp [dedupByKey]
  | cons t ts ih =>
    simp only [dedupByKey]
    split
    · exact (ih dict).trans (List.sublist_cons_self t ts)
    · exact (ih _).cons₂ t

theorem typeWalk_cons (ig : Bool) (s : XSDSchema) (rest : List XSDSchema) :
    typeWalk ig (s :: rest) =
      (s.simpleType.map
        (fun t => (getFullTypeName t.name s.targetNamespace ig,
          (Sum.inl t : XSDSimpleType ⊕ XSDComplexType))) ++
       s.complexTypes.map
        (fun t => (getFullTypeName t.name s.targetNamespace ig, Sum.inr t))) ++
      typeWalk ig rest := by
  simp [typeWalk, List.flatMap_cons]

theorem typeWalk_cons_mod (ig : Bool) (s : XSDSchema)
    (X : List XSDSimpleType) (Y : List XSDComplexType)
    (rest : List XSDSchema) :
    typeWalk ig ({ s with simpleType := X, complexTypes := Y } :: rest) =
      (X.map
        (fun t => (getFullTypeName t.name s.targetNamespace ig,
          (Sum.inl t : XSDSimpleType ⊕ XSDComplexType))) ++
       Y.map
        (fun t => (getFullTypeName t.name s.targetNamespace ig, Sum.inr t))) ++
      typeWalk ig rest := by
  simp [typeWalk, List.flatMap_cons]

/-- The dedup of the whole schema set is the spec-side single global pass
over the walk. -/
theorem dedupSchemas_walk (ig : Bool) (dict : List String)
    (schemas : List XSDSchema) :
    typeWalk ig (dedupSchemas ig dict schemas) =
      firstWins dict (typeWalk ig schemas) := by
  induction schemas generalizing dict with
  | nil => rfl
  | cons s rest ih =>
    have hs := dedupByKey_walk
      (fun t : XSDSimpleType => getFullTypeName t.name s.targetNamespace ig)
      (Sum.inl : XSDSimpleType → XSDSimpleType ⊕ XSDComplexType)
      dict s.simpleType
    have hc := dedupByKey_walk
      (fun t : XSDComplexType => getFullTypeName t.name s.targetNamespace ig)
      (Sum.inr : XSDComplexType → XSDSimpleType ⊕ XSDComplexType)
      (dedupByKey
        (fun t : XSDSimpleType => getFullTypeName t.name s.targetNamespace ig)
        dict s.simpleType).1
      s.complexTypes
    have hstep : dedupSchemas ig dict (s :: rest) =
        { s with
          simpleType := (dedupByKey
            (fun t : XSDSimpleType =>
              getFullTypeName t.name s.targetNamespace ig) dict s.simpleType).2,
          complexTypes := (dedupByKey
            (fun t : XSDComplexType =>
              getFullTypeName t.name s.targetNamespace ig)
            (dedupByKey
              (fun t : XSDSimpleType =>
                getFullTypeName t.name s.targetNamespace ig)
              dict s.simpleType).1 s.complexTypes).2 } ::
        dedupSchemas ig
          (dedupByKey
            (fun t : XSDComplexType =>
              getFullTypeName t.name s.targetNamespace ig)
            (dedupByKey
              (fun t : XSDSimpleType =>
                getFullTypeName t.name s.targetNamespace ig)
              dict s.simpleType).1 s.complexTypes).1 rest := rfl
    rw [hstep, typeWalk_cons_mod, ih, typeWalk_cons, List.append_assoc,
      firstWins_append, firstWins_append, hc.2, hc.1, hs.2, hs.1,
      List.append_assoc, seenAfter_append]

/-- Per schema, the surviving lists are subsequences of the originals and
every other field is untouched. -/
theorem dedupSchemas_sublists (ig : Bool) (dict : List String)
    (schemas : List XSDSchema) :
    List.Forall₂ (fun s t : XSDSchema =>
      t.simpleType.Sublist s.simpleType ∧
      t.complexTypes.Sublist s.complexTypes ∧
      t.targetNamespace = s.targetNamespace ∧ t.imports = s.imports ∧
      t.includes = s.includes ∧ t.elements = s.elements)
      schemas (dedupSchemas ig dict schemas) := by
  induction schemas generalizing dict with
  | nil => exact List.Forall₂.nil
  | cons s rest ih =>
    exact List.Forall₂.cons
      ⟨dedupByKey_sublist _ _ _, dedupByKey_sublist _ _ _, rfl, rfl, rfl, rfl⟩
      (ih _)

/-- C2: after `removeTypeDuplicates`, the global walk — schemas in order,
one dictionary spanning all of them, simple types before complex types
within a schema, declaration order within each list — keeps exactly the
first occurrence of each Type Key, and per schema the surviving lists are
subsequences of the originals (relative order preserved) with every other
field untouched. -/
theorem claim_removeTypeDuplicates_first_wins (ig : Bool) (w : WSDLType) :
    typeWalk ig (removeTypeDuplicates ig w).schemas =
      firstWins [] (typeWalk ig w.schemas) ∧
    List.Forall₂ (fun s t : XSDSchema =>
      t.simpleType.Sublist s.simpleType ∧
      t.complexTypes.Sublist s.complexTypes ∧
      t.targetNamespace = s.targetNamespace ∧ t.imports = s.imports ∧
      t.includes = s.includes ∧ t.elements = s.elements)
      w.schemas (removeTypeDuplicates ig w).schemas :=
  ⟨dedupSchemas_walk ig [] w.schemas, dedupSchemas_sublists ig [] w.schemas⟩

theorem findTypeScan_all_zero (schemas : List XSDSchema) (message : String)
    (msgs : List WSDLMessage)
    (h : ∀ m ∈ msgs, m.name = message → m.parts = []) :
    findTypeScan schemas message msgs = "" := by
  induction msgs with
  | nil => rfl
  | cons m rest ih =>
    simp only [findTypeScan]
    by_cases hn : m.name ≠ message
    · rw [if_pos hn]
      exact ih fun x hx => h x (List.mem_cons_of_mem _ hx)
    · rw [if_neg hn]
      push_neg at hn
      rw [h m (List.mem_cons_self m rest) hn]
      exact ih fun x hx => h x (List.mem_cons_of_mem _ hx)

theorem findTypeScan_first_typed (schemas : List XSDSchema)
    (message : String) (pre post : List WSDLMessage) (msg : WSDLMessage)
    (p : WSDLPart) (ps : List WSDLPart)
    (hpre : ∀ m ∈ pre, m.name ≠ message ∨ m.parts = [])
    (hname : msg.name = message) (hparts : msg.parts = p :: ps)
    (htype : p.type ≠ "") :
    findTypeScan schemas message (pre ++ msg :: post) = stripns p.type := by
  induction pre with
  | nil =>
    simp only [List.nil_append, findTypeScan]
    rw [if_neg (by simp [hname]), hparts]
    exact if_pos htype
  | cons m pre ih =>
    have hrest := ih fun x hx => hpre x (List.mem_cons_of_mem _ hx)
    simp only [List.cons_append, findTypeScan]
    rcases hpre m (List.mem_cons_self m pre) with hm | hm
    · rw [if_pos hm]
      exact hrest
    · by_cases hn : m.name ≠ message
      · rw [if_pos hn]
        exact hrest
      · rw [if_neg hn, hm]
        exact hrest

/-- C8 counterexample: the message located by name (`M`, the first match)
has zero parts, yet `findType` does not return the empty string — the
zero-part message is skipped and a later message of the same name takes
over. -/
theorem claim_findType_zero_parts_counterexample :
    wsdlDupMsg.messages.find? (fun m => m.name == stripns "M") =
      some ⟨"M", []⟩ ∧
    findType wsdlDupMsg "M" = "T" ∧
    findType wsdlDupMsg "M" ≠ "" := by
  refine ⟨by decide, by decide, by decide⟩

/-- C8 amended: a zero-Part message is skipped — never an error — and the
scan continues with later messages of the same (namespace-stripped) name;
when every matching message has zero Parts, `findType` returns the empty
string; the first matching message with at least one Part whose first Part
carries an inline type yields that type namespace-stripped. -/
theorem claim_findType_zero_parts (w : WSDL) (message : String) :
    ((∀ m ∈ w.messages, m.name = stripns message → m.parts = []) →
      findType w message = "") ∧
    ∀ (pre post : List WSDLMessage) (msg : WSDLMessage) (p : WSDLPart)
      (ps : List WSDLPart),
      w.messages = pre ++ msg :: post →
      (∀ m ∈ pre, m.name ≠ stripns message ∨ m.parts = []) →
      msg.name = stripns message → msg.parts = p :: ps → p.type ≠ "" →
      findType w message = stripns p.type := by
  constructor
  · intro h
    exact findTypeScan_all_zero _ _ _ h
  · intro pre post msg p ps hsplit hpre hname hparts htype
    rw [findType, hsplit]
    exact findTypeScan_first_typed _ _ pre post msg p ps hpre hname hparts
      htype

/-- Witness for C8's amended statement: an all-zero-parts model yields the
empty string; the duplicate-name model yields the second message's stripped
part type. -/
theorem claim_findType_zero_parts_witness :
    findType ⟨[⟨"M", []⟩], [], ⟨[]⟩⟩ "M" = "" ∧
    findType wsdlDupMsg "M" = stripns "tns:T" :=
  ⟨(claim_findType_zero_parts ⟨[⟨"M", []⟩], [], ⟨[]⟩⟩ "M").1 (by decide),
   (claim_findType_zero_parts wsdlDupMsg "M").2 [⟨"M", []⟩] []
     ⟨"M", [⟨"p", "tns:T", ""⟩]⟩ ⟨"p", "tns:T", ""⟩ [] rfl (by decide)
     (by decide) rfl (by decide)⟩

theorem RunInv.refl {w : World} {st : ResolveState} :
    RunInv w [] st st (.ok ()) where
  visited_mono := fun _ h => h
  entries_mono := Nat.le_refl _
  counter_eq := fun h => by
    rw [Nat.sub_self, Nat.add_zero, Nat.mod_eq_of_lt h]
  schemas_eq := rfl
  ceiling_mono := fun h => h
  ok_attempts := fun _ => ⟨[], by simp⟩
  error_attempts := fun e h => by cases h
  fetch_nodup := fun _ hn hsub =>
    ⟨hn, fun x hx => (hsub x hx).resolve_right (List.not_mem_nil x)⟩

/-- Sequential composition of an ok-returning step with a continuation. -/
theorem RunInv.comp {w : World} {e1 e2 : List String}
    {st st1 st' : ResolveState} {r : Except String Unit}
    (h1 : RunInv w e1 st st1 (.ok ()))
    (h2 : RunInv w e2 st1 st' r) : RunInv w e1 st st' r where
  visited_mono := fun x hx => h2.visited_mono (h1.visited_mono hx)
  entries_mono := Nat.le_trans h1.entries_mono h2.entries_mono
  counter_eq := fun h => by
    have hc1 := h1.counter_eq h
    have hlt : st1.counter < 256 := by
      rw [hc1]
      exact Nat.mod_lt _ (by omega)
    have hc2 := h2.counter_eq hlt
    rw [hc2, hc1, Nat.mod_add_mod]
    congr 1
    have he1 := h1.entries_mono
    have he2 := h2.entries_mono
    omega
  schemas_eq := by
    have := h1.schemas_eq
    have := h2.schemas_eq
    omega
  ceiling_mono := fun h => h2.ceiling_mono (h1.ceiling_mono h)
  ok_attempts := fun hr => by
    obtain ⟨n1, ha1, hok1⟩ := h1.ok_attempts rfl
    obtain ⟨n2, ha2, hok2⟩ := h2.ok_attempts hr
    refine ⟨n1 ++ n2, by rw [ha2, ha1, List.append_assoc], ?_⟩
    intro x hx
    rcases List.mem_append.mp hx with h | h
    · exact hok1 x h
    · exact hok2 x h
  error_attempts := fun e hr => by
    obtain ⟨n1, ha1, hok1⟩ := h1.ok_attempts rfl
    obtain ⟨pre, l, ha2, hok2, hl⟩ := h2.error_attempts e hr
    refine ⟨n1 ++ pre, l, ?_, ?_, hl⟩
    · rw [ha2, ha1]
      simp [List.append_assoc]
    · intro x hx
      rcases List.mem_append.mp hx with h | h
      · exact hok1 x h
      · exact hok2 x h
  fetch_nodup := fun hc hn hsub => by
    have hc1 : st1.ceilingHit = false := by
      cases h : st1.ceilingHit
      · rfl
      · rw [h2.ceiling_mono h] at hc
        cases hc
    obtain ⟨hn1, hsub1⟩ := h1.fetch_nodup hc1 hn hsub
    exact h2.fetch_nodup hc hn1 (fun x hx => Or.inl (hsub1 x hx))

/-- A successful `downloadSchemaIfRequired` followed by the append and the
recursive call preserves the run invariant. -/
theorem dlStep_inv {w : World} {st : ResolveState} {newLoc : String}
    {ns : XSDSchema} (hv : newLoc ∉ st.visited) (hf : w.fetch newLoc = .ok ns)
    {st3 : ResolveState} {r : Except String Unit}
    (hn : RunInv w [newLoc]
      { st with attempts := st.attempts ++ [newLoc],
                fetched := st.fetched ++ [newLoc],
                schemas := st.schemas ++ [ns] } st3 r) :
    RunInv w [] st st3 r where
  visited_mono := hn.visited_mono
  entries_mono := hn.entries_mono
  counter_eq := hn.counter_eq
  schemas_eq := by
    have h := hn.schemas_eq
    simp only [List.length_append, List.length_cons, List.length_nil] at h
    omega
  ceiling_mono := hn.ceiling_mono
  ok_attempts := fun hr => by
    obtain ⟨new, ha, hok⟩ := hn.ok_attempts hr
    refine ⟨newLoc :: new, by simpa [List.append_assoc] using ha, ?_⟩
    intro x hx
    rcases List.mem_cons.mp hx with rfl | hx
    · rw [hf]; rfl
    · exact hok x hx
  error_attempts := fun e hr => by
    obtain ⟨pre, l, ha, hok, hl⟩ := hn.error_attempts e hr
    refine ⟨newLoc :: pre, l, by simpa [List.append_assoc] using ha, ?_, hl⟩
    intro x hx
    rcases List.mem_cons.mp hx with rfl | hx
    · rw [hf]; rfl
    · exact hok x hx
  fetch_nodup := fun hc hnod hsub => by
    have hsub' : ∀ x ∈ st.fetched, x ∈ st.visited := fun x hx =>
      (hsub x hx).resolve_right (List.not_mem_nil x)
    have hnl : newLoc ∉ st.fetched := fun hmem => hv (hsub' newLoc hmem)
    refine hn.fetch_nodup hc ?_ ?_
    · simpa [List.nodup_append] using ⟨hnod, hnl⟩
    · intro x hx
      rcases List.mem_append.mp hx with hx | hx
      · exact Or.inl (hsub' x hx)
      · exact Or.inr hx

/-- The reference loop preserves the run invariant, provided the recursive
callback does. -/
theorem resolveRefs_inv (w : World)
    (next : XSDSchema → String → ResolveState →
      Option (Except String Unit × ResolveState))
    (base : String)
    (hnext : ∀ s l st r st', next s l st = some (r, st') →
      RunInv w [l] st st' r) :
    ∀ (refs : List String) (st : ResolveState) (r : Except String Unit)
      (st' : ResolveState),
      resolveRefs w next base st refs = some (r, st') →
      RunInv w [] st st' r := by
  intro refs
  induction refs with
  | nil =>
    intro st r st' h
    simp only [resolveRefs, Option.some.injEq, Prod.mk.injEq] at h
    obtain ⟨rfl, rfl⟩ := h
    exact RunInv.refl
  | cons locRef rest ih =>
    intro st r st' h
    simp only [resolveRefs] at h
    split at h
    · exact ih st r st' h
    · by_cases hv : w.parse base locRef ∈ st.visited
      · have hdl : downloadSchemaIfRequired w st base locRef = (.ok none, st) := by
          simp only [downloadSchemaIfRequired]
          rw [if_pos hv]
        rw [hdl] at h
        exact ih st r st' h
      · cases hf : w.fetch (w.parse base locRef) with
        | error e =>
          have hdl : downloadSchemaIfRequired w st base locRef =
              (.error e,
               { st with attempts := st.attempts ++ [w.parse base locRef] }) := by
            simp only [downloadSchemaIfRequired]
            rw [if_neg hv, hf]
          rw [hdl] at h
          simp only [Option.some.injEq, Prod.mk.injEq] at h
          obtain ⟨rfl, rfl⟩ := h
          exact {
            visited_mono := fun _ hx => hx
            entries_mono := Nat.le_refl _
            counter_eq := fun hlt => by
              simp only [Nat.sub_self, Nat.add_zero, Nat.mod_eq_of_lt hlt]
            schemas_eq := rfl
            ceiling_mono := fun hx => hx
            ok_attempts := fun hr => by cases hr
            error_attempts := fun e2 hr => by
              cases hr
              exact ⟨[], w.parse base locRef, by simp, by simp, hf⟩
            fetch_nodup := fun _ hnod hsub =>
              ⟨hnod, fun x hx =>
                (hsub x hx).resolve_right (List.not_mem_nil x)⟩ }
        | ok ns =>
          have hdl : downloadSchemaIfRequired w st base locRef =
              (.ok (some (ns, w.parse base locRef)),
               { st with
                   attempts := st.attempts ++ [w.parse base locRef],
                   fetched := st.fetched ++ [w.parse base locRef] }) := by
            simp only [downloadSchemaIfRequired]
            rw [if_neg hv, hf]
          rw [hdl] at h
          dsimp only at h
          cases hnx : next ns (w.parse base locRef)
              { st with
                  attempts := st.attempts ++ [w.parse base locRef],
                  fetched := st.fetched ++ [w.parse base locRef],
                  schemas := st.schemas ++ [ns] } with
          | none => rw [hnx] at h; cases h
          | some p =>
            obtain ⟨rn, st3⟩ := p
            rw [hnx] at h
            have hstep := dlStep_inv hv hf (hnext _ _ _ _ _ hnx)
            cases rn with
            | error e =>
              simp only [Option.some.injEq, Prod.mk.injEq] at h
              obtain ⟨rfl, rfl⟩ := h
              exact hstep
            | ok u =>
              cases u
              exact RunInv.comp hstep (ih st3 r st' h)

/-- `resolveXSDExternals` preserves the run invariant. -/
theorem resolveXSD_inv : ∀ (fuel : Nat) (w : World) (schema : XSDSchema)
    (loc : String) (st : ResolveState) (r : Except String Unit)
    (st' : ResolveState),
    resolveXSD fuel w schema loc st = some (r, st') →
    RunInv w [loc] st st' r := by
  intro fuel
  induction fuel with
  | zero =>
    intro w schema loc st r st' h
    simp [resolveXSD] at h
  | succ fuel ih =>
    intro w schema loc st r st' h
    simp only [resolveXSD] at h
    split at h
    · -- recursion ceiling: immediate success, only counter/entries/flag move
      simp only [Option.some.injEq, Prod.mk.injEq] at h
      obtain ⟨rfl, rfl⟩ := h
      exact {
        visited_mono := fun _ hx => hx
        entries_mono := Nat.le_succ _
        counter_eq := fun _ => by simp
        schemas_eq := rfl
        ceiling_mono := fun _ => rfl
        ok_attempts := fun _ => ⟨[], by simp⟩
        error_attempts := fun e hr => by cases hr
        fetch_nodup := fun hc => by cases hc }
    · rename_i hceil
      split at h
      · rename_i hvis
        simp only [Option.some.injEq, Prod.mk.injEq] at h
        obtain ⟨rfl, rfl⟩ := h
        exact {
          visited_mono := fun _ hx => hx
          entries_mono := Nat.le_succ _
          counter_eq := fun _ => by simp
          schemas_eq := rfl
          ceiling_mono := fun hx => hx
          ok_attempts := fun _ => ⟨[], by simp⟩
          error_attempts := fun e hr => by cases hr
          fetch_nodup := fun _ hnod hsub =>
            ⟨hnod, fun x hx => by
              rcases hsub x hx with hx2 | hx2
              · exact hx2
              · rcases List.mem_singleton.mp hx2 with rfl
                exact hvis⟩ }
      · rename_i hvis
        have hmark : RunInv w [loc] st
            { st with counter := (st.counter + 1) % 256,
                      entries := st.entries + 1,
                      visited := loc :: st.visited } (.ok ()) := {
          visited_mono := fun x hx => List.mem_cons_of_mem _ hx
          entries_mono := Nat.le_succ _
          counter_eq := fun _ => by simp
          schemas_eq := rfl
          ceiling_mono := fun hx => hx
          ok_attempts := fun _ => ⟨[], by simp⟩
          error_attempts := fun e hr => by cases hr
          fetch_nodup := fun _ hnod hsub =>
            ⟨hnod, fun x hx => by
              rcases hsub x hx with hx2 | hx2
              · exact List.mem_cons_of_mem _ hx2
              · rcases List.mem_singleton.mp hx2 with rfl
                exact List.mem_cons_self _ _⟩ }
        cases h1 : resolveRefs w (resolveXSD fuel w) loc
            { st with counter := (st.counter + 1) % 256,
                      entries := st.entries + 1,
                      visited := loc :: st.visited }
            (schema.imports.map (·.schemaLocation)) with
        | none => rw [h1] at h; cases h
        | some p =>
          obtain ⟨r1, st3⟩ := p
          rw [h1] at h
          have hrefs1 := resolveRefs_inv w (resolveXSD fuel w) loc
            (fun s l stx rx stx' hx => ih w s l stx rx stx' hx) _ _ _ _ h1
          cases r1 with
          | error e =>
            simp only [Option.some.injEq, Prod.mk.injEq] at h
            obtain ⟨rfl, rfl⟩ := h
            exact RunInv.comp hmark hrefs1
          | ok u =>
            cases u
            have hrefs2 := resolveRefs_inv w (resolveXSD fuel w) loc
              (fun s l stx rx stx' hx => ih w s l stx rx stx' hx) _ _ _ _ h
            exact RunInv.comp hmark (RunInv.comp hrefs1 hrefs2)

theorem mem_okDom_of_fetch_ok {w : World} {loc : String} {s : XSDSchema}
    (h : w.fetch loc = .ok s) : loc ∈ w.okDom := by
  rw [World.fetch] at h
  cases hf : w.fetchMap.find? (fun p => p.1 == loc) with
  | none => rw [hf] at h; cases h
  | some p =>
    rw [hf] at h
    have hpmem := List.mem_of_find?_eq_some hf
    have hpeq := List.find?_some hf
    simp only [beq_iff_eq] at hpeq
    rw [World.okDom]
    simp only [List.mem_toFinset, List.mem_map]
    refine ⟨p, ?_, by simpa using hpeq⟩
    rw [List.mem_filter]
    refine ⟨hpmem, ?_⟩
    have h2 : p.2 = Except.ok s := h
    rw [h2]
    rfl

theorem unseenCount_mono {w : World} {v1 v2 : List String}
    (h : v1 ⊆ v2) : unseenCount w v2 ≤ unseenCount w v1 := by
  apply Finset.card_le_card
  intro x hx
  rw [Finset.mem_filter] at hx ⊢
  exact ⟨hx.1, fun hmem => hx.2 (h hmem)⟩

/-- The reference loop cannot run out of fuel when the fuel exceeds the
number of fetchable unvisited locations. -/
theorem resolveRefs_total (w : World) (f : Nat) (base : String)
    (hT : ∀ s loc st, (w.okDom.filter
        (fun l => l ∉ st.visited ∧ l ≠ loc)).card < f →
      resolveXSD f w s loc st ≠ none) :
    ∀ (refs : List String) (st : ResolveState),
      unseenCount w st.visited ≤ f →
      resolveRefs w (resolveXSD f w) base st refs ≠ none := by
  intro refs
  induction refs with
  | nil =>
    intro st _ hnone
    simp [resolveRefs] at hnone
  | cons locRef rest ih =>
    intro st hcard hnone
    simp only [resolveRefs] at hnone
    split at hnone
    · exact ih st hcard hnone
    · by_cases hv : w.parse base locRef ∈ st.visited
      · have hdl : downloadSchemaIfRequired w st base locRef = (.ok none, st) := by
          simp only [downloadSchemaIfRequired]
          rw [if_pos hv]
        rw [hdl] at hnone
        exact ih st hcard hnone
      · cases hf : w.fetch (w.parse base locRef) with
        | error e =>
          have hdl : downloadSchemaIfRequired w st base locRef =
              (.error e,
               { st with attempts := st.attempts ++ [w.parse base locRef] }) := by
            simp only [downloadSchemaIfRequired]
            rw [if_neg hv, hf]
          rw [hdl] at hnone
          cases hnone
        | ok ns =>
          have hdl : downloadSchemaIfRequired w st base locRef =
              (.ok (some (ns, w.parse base locRef)),
               { st with
                   attempts := st.attempts ++ [w.parse base locRef],
                   fetched := st.fetched ++ [w.parse base locRef] }) := by
            simp only [downloadSchemaIfRequired]
            rw [if_neg hv, hf]
          rw [hdl] at hnone
          dsimp only at hnone
          have hmem : w.parse base locRef ∈
              w.okDom.filter (fun l => l ∉ st.visited) := by
            rw [Finset.mem_filter]
            exact ⟨mem_okDom_of_fetch_ok hf, hv⟩
          have hcard2 : (w.okDom.filter
              (fun l => l ∉ st.visited ∧ l ≠ w.parse base locRef)).card < f := by
            have herase : w.okDom.filter
                (fun l => l ∉ st.visited ∧ l ≠ w.parse base locRef) =
                (w.okDom.filter (fun l => l ∉ st.visited)).erase
                  (w.parse base locRef) := by
              ext x
              simp only [Finset.mem_filter, Finset.mem_erase]
              tauto
            have hpos : 0 < (w.okDom.filter (fun l => l ∉ st.visited)).card :=
              Finset.card_pos.mpr ⟨_, hmem⟩
            rw [herase, Finset.card_erase_of_mem hmem]
            rw [unseenCount] at hcard
            omega
          cases hres : resolveXSD f w ns (w.parse base locRef)
              { st with
                  attempts := st.attempts ++ [w.parse base locRef],
                  fetched := st.fetched ++ [w.parse base locRef],
                  schemas := st.schemas ++ [ns] } with
          | none =>
            exact hT ns (w.parse base locRef)
              { st with
                  attempts := st.attempts ++ [w.parse base locRef],
                  fetched := st.fetched ++ [w.parse base locRef],
                  schemas := st.schemas ++ [ns] } hcard2 hres
          | some p =>
            obtain ⟨rn, st3⟩ := p
            rw [hres] at hnone
            cases rn with
            | error e => cases hnone
            | ok u =>
              cases u
              have hmono := (resolveXSD_inv f w ns (w.parse base locRef)
                _ _ _ hres).visited_mono
              refine ih st3 ?_ hnone
              calc unseenCount w st3.visited
                  ≤ unseenCount w st.visited := unseenCount_mono hmono
                _ ≤ f := hcard

/-- `resolveXSDExternals` always terminates: fuel exceeding the number of
fetchable unvisited locations (other than the current one) is enough, on
every import/include graph, cyclic ones included. -/
theorem resolveXSD_total : ∀ (fuel : Nat) (w : World) (schema : XSDSchema)
    (loc : String) (st : ResolveState),
    (w.okDom.filter (fun l => l ∉ st.visited ∧ l ≠ loc)).card < fuel →
    resolveXSD fuel w schema loc st ≠ none := by
  intro fuel
  induction fuel with
  | zero =>
    intro w schema loc st hcard
    omega
  | succ f ih =>
    intro w schema loc st hcard hnone
    simp only [resolveXSD] at hnone
    split at hnone
    · cases hnone
    · split at hnone
      · cases hnone
      · rename_i hvis
        have hsub : unseenCount w (loc :: st.visited) ≤ f := by
          have hequiv : w.okDom.filter (fun l => l ∉ loc :: st.visited) =
              w.okDom.filter (fun l => l ∉ st.visited ∧ l ≠ loc) := by
            ext x
            simp only [Finset.mem_filter, List.mem_cons]
            tauto
          rw [unseenCount, hequiv]
          omega
        cases h1 : resolveRefs w (resolveXSD f w) loc
            { st with counter := (st.counter + 1) % 256,
                      entries := st.entries + 1,
                      visited := loc :: st.visited }
            (schema.imports.map (·.schemaLocation)) with
        | none => exact resolveRefs_total w f loc (ih w) _ _ hsub h1
        | some p =>
          obtain ⟨r1, st3⟩ := p
          rw [h1] at hnone
          cases r1 with
          | error e => cases hnone
          | ok u =>
            cases u
            have hmono := (resolveRefs_inv w (resolveXSD f w) loc
              (fun s l stx rx stx' hx => resolveXSD_inv f w s l stx rx stx' hx)
              _ _ _ _ h1).visited_mono
            refine resolveRefs_total w f loc (ih w) _ st3 ?_ hnone
            calc unseenCount w st3.visited
                ≤ unseenCount w (loc :: st.visited) := by
                  exact unseenCount_mono hmono
              _ ≤ f := hsub

/-- The root-schema loop's attempt-trace facts: a success only ever adds
successful fetches; an error is the error of the one failing fetch, which
is the last attempt made. -/
theorem resolveAll_attempts (fuel : Nat) (w : World) (loc : String) :
    ∀ (schemas : List XSDSchema) (st : ResolveState)
      (r : Except String Unit) (st' : ResolveState),
      resolveAll fuel w loc st schemas = some (r, st') →
      (r = .ok () → ∃ new, st'.attempts = st.attempts ++ new ∧
        ∀ x ∈ new, (w.fetch x).toBool = true) ∧
      (∀ e, r = .error e → ∃ pre l,
        st'.attempts = st.attempts ++ (pre ++ [l]) ∧
        (∀ x ∈ pre, (w.fetch x).toBool = true) ∧ w.fetch l = .error e) := by
  intro schemas
  induction schemas with
  | nil =>
    intro st r st' h
    simp only [resolveAll, Option.some.injEq, Prod.mk.injEq] at h
    obtain ⟨rfl, rfl⟩ := h
    exact ⟨fun _ => ⟨[], by simp⟩, fun e hr => by cases hr⟩
  | cons schema rest ih =>
    intro st r st' h
    simp only [resolveAll] at h
    cases hx : resolveXSD fuel w schema loc st with
    | none => rw [hx] at h; cases h
    | some p =>
      obtain ⟨r1, st1⟩ := p
      rw [hx] at h
      have hinv := resolveXSD_inv fuel w schema loc _ _ _ hx
      cases r1 with
      | error e =>
        simp only [Option.some.injEq, Prod.mk.injEq] at h
        obtain ⟨rfl, rfl⟩ := h
        refine ⟨(fun hr => nomatch hr), fun e2 hr => ?_⟩
        cases hr
        exact hinv.error_attempts _ rfl
      | ok u =>
        cases u
        obtain ⟨new1, ha1, hok1⟩ := hinv.ok_attempts rfl
        obtain ⟨hok2, herr2⟩ := ih st1 r st' h
        constructor
        · intro hr
          obtain ⟨new2, ha2, hok2'⟩ := hok2 hr
          refine ⟨new1 ++ new2, by rw [ha2, ha1, List.append_assoc], ?_⟩
          intro x hxm
          rcases List.mem_append.mp hxm with hm | hm
          · exact hok1 x hm
          · exact hok2' x hm
        · intro e hr
          obtain ⟨pre, l, ha2, hokp, hl⟩ := herr2 e hr
          refine ⟨new1 ++ pre, l, ?_, ?_, hl⟩
          · rw [ha2, ha1]
            simp [List.append_assoc]
          · intro x hxm
            rcases List.mem_append.mp hxm with hm | hm
            · exact hok1 x hm
            · exact hokp x hm

/-- An `unmarshal` error is the root fetch's error or some referenced
schema fetch's error, verbatim. -/
theorem unmarshal_error (fuel : Nat) (w : World) (e : String)
    (h : unmarshal fuel w = some (.error e)) :
    w.wsdlFetch = .error e ∨ ∃ l, w.fetch l = .error e := by
  simp only [unmarshal] at h
  cases hw : w.wsdlFetch with
  | error e2 =>
    rw [hw] at h
    dsimp only at h
    simp only [Option.some.injEq, Except.error.injEq] at h
    subst h
    exact Or.inl rfl
  | ok wsdl =>
    rw [hw] at h
    dsimp only at h
    cases hr : resolveAll fuel w w.rootLoc (cleanState wsdl.types.schemas)
        wsdl.types.schemas with
    | none => rw [hr] at h; cases h
    | some p =>
      obtain ⟨r1, st1⟩ := p
      rw [hr] at h
      cases r1 with
      | error e2 =>
        simp only [Option.some.injEq, Except.error.injEq] at h
        subst h
        obtain ⟨_, l, _, _, hl⟩ :=
          (resolveAll_attempts fuel w w.rootLoc _ _ _ _ hr).2 _ rfl
        exact Or.inr ⟨l, hl⟩
      | ok u => cases u; cases h

/-- A successful `unmarshal` made no failing fetch attempt. -/
theorem unmarshal_ok_attempts (fuel : Nat) (w : World) (wsdl : WSDL)
    (st : ResolveState) (h : unmarshal fuel w = some (.ok (wsdl, st))) :
    ∀ x ∈ st.attempts, (w.fetch x).toBool = true := by
  simp only [unmarshal] at h
  cases hw : w.wsdlFetch with
  | error e2 => rw [hw] at h; cases h
  | ok wsdl2 =>
    rw [hw] at h
    dsimp only at h
    cases hr : resolveAll fuel w w.rootLoc (cleanState wsdl2.types.schemas)
        wsdl2.types.schemas with
    | none => rw [hr] at h; cases h
    | some p =>
      obtain ⟨r1, st1⟩ := p
      rw [hr] at h
      cases r1 with
      | error e2 => cases h
      | ok u =>
        cases u
        simp only [Option.some.injEq, Except.ok.injEq, Prod.mk.injEq] at h
        obtain ⟨rfl, rfl⟩ := h
        obtain ⟨new, ha, hok⟩ :=
          (resolveAll_attempts fuel w w.rootLoc _ _ _ _ hr).1 rfl
        intro x hx
        rw [ha] at hx
        simp only [cleanState, List.nil_append] at hx
        exact hok x hx

/-- C3: every entry of `resolveXSDExternals` bumps the one shared counter
(mod 256, it is a `uint8`), which is never decremented or reset; once the
bumped counter exceeds the ceiling of 100 the call returns success
immediately, touching nothing but the counter, the entry count and the
ghost ceiling flag — exhaustion is silent, never an error. -/
theorem claim_recursion_ceiling :
    (∀ (fuel : Nat) (w : World) (schema : XSDSchema) (loc : String)
       (st : ResolveState),
      (st.counter + 1) % 256 > maxRecursion →
      resolveXSD (fuel + 1) w schema loc st =
        some (.ok (), { st with counter := (st.counter + 1) % 256,
                                entries := st.entries + 1,
                                ceilingHit := true })) ∧
    ∀ (fuel : Nat) (w : World) (schema : XSDSchema) (loc : String)
      (st : ResolveState) (r : Except String Unit) (st' : ResolveState),
      resolveXSD fuel w schema loc st = some (r, st') →
      st.entries ≤ st'.entries ∧
      (st.counter < 256 →
        st'.counter = (st.counter + (st'.entries - st.entries)) % 256) := by
  constructor
  · intro fuel w schema loc st h
    simp only [resolveXSD]
    rw [if_pos h]
  · intro fuel w schema loc st r st' h
    have hinv := resolveXSD_inv fuel w schema loc st r st' h
    exact ⟨hinv.entries_mono, hinv.counter_eq⟩

/-- Witness for C3 at a counter of 150. -/
theorem claim_recursion_ceiling_witness :
    resolveXSD 1 cycleWorld emptySchema "L" st150 =
      some (.ok (), { st150 with counter := (st150.counter + 1) % 256,
                                 entries := st150.entries + 1,
                                 ceilingHit := true }) ∧
    (st150.entries ≤ 1 ∧
      (st150.counter < 256 → (151 : Nat) = (st150.counter + (1 - st150.entries)) % 256)) :=
  ⟨claim_recursion_ceiling.1 0 cycleWorld emptySchema "L" st150 (by decide),
   claim_recursion_ceiling.2 1 cycleWorld emptySchema "L" st150 (.ok ())
     ⟨[], 151, [], [], [], true, 1⟩ (by decide)⟩

/-- C4: a fetch (or parse) failure anywhere aborts the resolution — the
returned error is the failing fetch's error verbatim, the failing location
is the last fetch attempted, everything attempted before it succeeded —
and propagates unchanged through `unmarshal` to `Start`; a run that
reports success made no failing fetch. -/
theorem claim_fetch_error_aborts :
    (∀ (fuel : Nat) (w : World) (schema : XSDSchema) (loc : String)
       (st : ResolveState) (e : String) (st' : ResolveState),
      resolveXSD fuel w schema loc st = some (.error e, st') →
      ∃ pre l, st'.attempts = st.attempts ++ (pre ++ [l]) ∧
        (∀ x ∈ pre, (w.fetch x).toBool = true) ∧ w.fetch l = .error e) ∧
    (∀ (fuel : Nat) (w : World) (schema : XSDSchema) (loc : String)
       (st st' : ResolveState),
      resolveXSD fuel w schema loc st = some (.ok (), st') →
      ∃ new, st'.attempts = st.attempts ++ new ∧
        ∀ x ∈ new, (w.fetch x).toBool = true) ∧
    (∀ (fuel : Nat) (w : World) (e : String),
      unmarshal fuel w = some (.error e) →
      w.wsdlFetch = .error e ∨ ∃ l, w.fetch l = .error e) ∧
    (∀ (fuel : Nat) (w : World) (wsdl : WSDL) (st : ResolveState),
      unmarshal fuel w = some (.ok (wsdl, st)) →
      ∀ x ∈ st.attempts, (w.fetch x).toBool = true) ∧
    ∀ (g : Config) (pkg : String) (fuel : Nat) (w : World) (r : Renderers)
      (e : String),
      Start g pkg fuel w r = some (.error e) →
      unmarshal fuel w = some (.error e) := by
  refine ⟨?_, ?_, ?_, ?_, ?_⟩
  · intro fuel w schema loc st e st' h
    exact (resolveXSD_inv fuel w schema loc st _ st' h).error_attempts e rfl
  · intro fuel w schema loc st st' h
    exact (resolveXSD_inv fuel w schema loc st _ st' h).ok_attempts rfl
  · exact fun fuel w e h => unmarshal_error fuel w e h
  · exact fun fuel w wsdl st h => unmarshal_ok_attempts fuel w wsdl st h
  · intro g pkg fuel w r e h
    simp only [Start] at h
    cases hu : unmarshal fuel w with
    | none => rw [hu] at h; cases h
    | some u =>
      rw [hu] at h
      cases u with
      | error e2 =>
        dsimp only at h
        simp only [Option.some.injEq, Except.error.injEq] at h
        subst h
        rfl
      | ok p =>
        obtain ⟨wsdl, st⟩ := p
        dsimp only at h
        cases h

/-- Witness for C4 at the `failWorld` run (failing at `bad`, with `good`
fetched before it and `never` skipped after it) and at successful runs. -/
theorem claim_fetch_error_aborts_witness :
    (∃ pre l,
      (⟨["good", "root"], 2, [failSchema, goodSchema], ["good"],
        ["good", "bad"], false, 2⟩ : ResolveState).attempts =
        (cleanState [failSchema]).attempts ++ (pre ++ [l]) ∧
      (∀ x ∈ pre, (failWorld.fetch x).toBool = true) ∧
      failWorld.fetch l = .error "unreachable location bad") ∧
    (∃ new, cycleFinal.attempts = (cleanState [schemaA]).attempts ++ new ∧
      ∀ x ∈ new, (cycleWorld.fetch x).toBool = true) ∧
    (failWorld.wsdlFetch = .error "unreachable location bad" ∨
      ∃ l, failWorld.fetch l = .error "unreachable location bad") ∧
    (∀ x ∈ (cleanState []).attempts, (w0.fetch x).toBool = true) ∧
    unmarshal 3 failWorld = some (.error "unreachable location bad") :=
  ⟨claim_fetch_error_aborts.1 3 failWorld failSchema "root"
     (cleanState [failSchema]) "unreachable location bad"
     ⟨["good", "root"], 2, [failSchema, goodSchema], ["good"],
       ["good", "bad"], false, 2⟩ (by decide),
   claim_fetch_error_aborts.2.1 2 cycleWorld schemaA "A"
     (cleanState [schemaA]) cycleFinal (by decide),
   claim_fetch_error_aborts.2.2.1 3 failWorld "unreachable location bad"
     (by decide),
   claim_fetch_error_aborts.2.2.2.1 1 w0 wsdl0 (cleanState []) (by decide),
   claim_fetch_error_aborts.2.2.2.2 ⟨false, false⟩ "pkg" 3 failWorld rAllOk
     "unreachable location bad" (by decide)⟩

set_option maxRecDepth 10000 in
/-- C1 counterexample: on the 100-deep chain the recursion ceiling fires
while `X` is being resolved, so `X` is never marked visited, and the
second import path fetches and appends it a second time — refuting
"each unique location is fetched and appended exactly once" for graphs
deeper than the ceiling. -/
theorem claim_resolve_each_location_once_counterexample :
    ((resolveXSD 300 deepWorld (chainSchema 0) "l0"
        (cleanState [chainSchema 0])).map
      (fun p => (p.1.toBool, p.2.fetched.count "X",
        p.2.schemas.count emptySchema))) = some (true, 2, 2) := by
  decide

/-- C1 amended: resolution always terminates — fuel exceeding the number
of fetchable unvisited locations suffices, on every graph, cyclic ones
included — and, provided the recursion ceiling never fires during the run,
each unique external location is fetched at most once (the fetch trace has
no duplicates) and appended to the schema set exactly once per fetch, no
matter how many import/include paths reach it. -/
theorem claim_resolve_each_location_once :
    (∀ (fuel : Nat) (w : World) (schema : XSDSchema) (loc : String)
       (st : ResolveState),
      (w.okDom.filter (fun l => l ∉ st.visited ∧ l ≠ loc)).card < fuel →
      resolveXSD fuel w schema loc st ≠ none) ∧
    ∀ (fuel : Nat) (w : World) (schema : XSDSchema) (loc : String)
      (schemas : List XSDSchema) (r : Except String Unit)
      (st' : ResolveState),
      resolveXSD fuel w schema loc (cleanState schemas) = some (r, st') →
      st'.ceilingHit = false →
      st'.fetched.Nodup ∧ (∀ x ∈ st'.fetched, x ∈ st'.visited) ∧
      st'.schemas.length = schemas.length + st'.fetched.length := by
  constructor
  · exact resolveXSD_total
  · intro fuel w schema loc schemas r st' h hc
    have hinv := resolveXSD_inv fuel w schema loc _ _ _ h
    have hnd := hinv.fetch_nodup hc (by simp [cleanState]) (by simp [cleanState])
    have hs := hinv.schemas_eq
    simp only [cleanState, List.length_nil] at hs
    exact ⟨hnd.1, hnd.2, by omega⟩

/-- Witness for C1 on the cycle A → B → A: termination with fuel 2, and a
duplicate-free fetch trace with both schemas present exactly once. -/
theorem claim_resolve_each_location_once_witness :
    resolveXSD 2 cycleWorld schemaA "A" (cleanState [schemaA]) ≠ none ∧
    (cycleFinal.fetched.Nodup ∧
      (∀ x ∈ cycleFinal.fetched, x ∈ cycleFinal.visited) ∧
      cycleFinal.schemas.length = [schemaA].length + cycleFinal.fetched.length) :=
  ⟨claim_resolve_each_location_once.1 2 cycleWorld schemaA "A"
     (cleanState [schemaA]) (by decide),
   claim_resolve_each_location_once.2 2 cycleWorld schemaA "A" [schemaA]
     (.ok ()) cycleFinal (by decide) (by decide)⟩

/-- C7: when `unmarshal` succeeds, a types- or operations-rendering failure
is absorbed: that artifact's entry stays empty, the other three artifacts
still render, and `Start` reports success. -/
theorem claim_render_failure_isolated (g : Config) (pkg : String)
    (fuel : Nat) (w : World) (r : Renderers) (wsdl : WSDL)
    (st : ResolveState) (e : String) :
    unmarshal fuel w = some (.ok (wsdl, st)) →
    ((r.types (refine g.ignoreTypeNs wsdl).types = .error e →
      Start g pkg fuel w r = some (.ok
        { types := none,
          operations :=
            (r.operations (refine g.ignoreTypeNs wsdl).portTypes).toOption,
          header := (r.header pkg).toOption,
          soap := (r.soap pkg).toOption })) ∧
     (r.operations (refine g.ignoreTypeNs wsdl).portTypes = .error e →
      Start g pkg fuel w r = some (.ok
        { types := (r.types (refine g.ignoreTypeNs wsdl).types).toOption,
          operations := none,
          header := (r.header pkg).toOption,
          soap := (r.soap pkg).toOption }))) := by
  intro hu
  constructor
  · intro he
    simp only [Start, hu]
    rw [he]
    rfl
  · intro he
    simp only [Start, hu]
    rw [he]
    rfl

/-- Witness for C7: a failing types renderer and a failing operations
renderer, each leaving only its own artifact empty while `Start` still
succeeds. -/
theorem claim_render_failure_isolated_witness :
    Start ⟨false, false⟩ "pkg" 1 w0 rFailTypes = some (.ok
      { types := none,
        operations :=
          (rFailTypes.operations
            (refine (false : Bool) wsdl0).portTypes).toOption,
        header := (rFailTypes.header "pkg").toOption,
        soap := (rFailTypes.soap "pkg").toOption }) ∧
    Start ⟨false, false⟩ "pkg" 1 w0 rFailOps = some (.ok
      { types := (rFailOps.types (refine (false : Bool) wsdl0).types).toOption,
        operations := none,
        header := (rFailOps.header "pkg").toOption,
        soap := (rFailOps.soap "pkg").toOption }) :=
  ⟨(claim_render_failure_isolated ⟨false, false⟩ "pkg" 1 w0 rFailTypes wsdl0
      (cleanState []) "boom" (by decide)).1 rfl,
   (claim_render_failure_isolated ⟨false, false⟩ "pkg" 1 w0 rFailOps wsdl0
      (cleanState []) "boom" (by decide)).2 rfl⟩

end Gowsdl
